import Mathlib

set_option maxRecDepth 100000

namespace SCD

/-!
Shallow embedding of the smartcarddetective python tools.

Byte strings are modelled as `List Nat` (each entry one byte, `< 256` for
inputs that arise from real hex data); hex text is modelled as `List Char`;
nibble-indexed hex streams of the event log are modelled as `List Nat`
(each entry one nibble value).  Fallible python code (exceptions such as
`IndexError` or failed `assert`s) is modelled with `Option`.
-/

/-! ### src/tools/pytools/tlv.py -/

/-- `maketlv(tag, value)` from tlv.py:
`if len(value) < 256: return tag + chr(len(value)) + value` and otherwise
`return '\x82' + pack('!H', len(value)) + value`.  Note that in the second
branch the python code does NOT emit the tag.  `pack('!H', n)` is the
big-endian two-byte encoding of `n` and raises for `n ≥ 65536` (modelled
as `none`). -/
def maketlv (tag value : List Nat) : Option (List Nat) :=
  if value.length < 256 then some (tag ++ value.length :: value)
  else if value.length < 65536 then
    some ([0x82, value.length / 256, value.length % 256] ++ value)
  else none

/-- The tag-reading prefix of `T._parse`:
`t = data[0]; if ord(t) & 0x1F == 0x1F: t += data[1]` followed by
`data = data[len(t):]`.  `b % 32 = 31` is `ord(b) & 0x1F == 0x1F` for
byte values.  A missing byte (`IndexError`) is `none`. -/
def parseTag : List Nat → Option (List Nat × List Nat)
  | [] => none
  | t0 :: rest =>
    if t0 % 32 = 31 then
      match rest with
      | [] => none
      | t1 :: rest2 => some ([t0, t1], rest2)
    else some ([t0], rest)

/-- The length-reading part of `T._parse`:
`if ord(data[0]) & 0x80 == 0x80: l = ord(data[0])*256 + ord(data[1])`
(consuming two bytes) `else l = ord(data[0])` (consuming one byte).
`b / 128 % 2 = 1` is `ord(b) & 0x80 == 0x80` for byte values.
Returns `(lenb, l, remaining data)`. -/
def parseLen : List Nat → Option (List Nat × Nat × List Nat)
  | [] => none
  | b0 :: rest =>
    if b0 / 128 % 2 = 1 then
      match rest with
      | [] => none
      | b1 :: rest2 => some ([b0, b1], b0 * 256 + b1, rest2)
    else some ([b0], b0, rest)

/-- A parsed `T` object from tlv.py: the externally visible fields set by
`T._parse` that the claims are about.  `t` is `self.tag` (the raw tag
bytes), `lenb` is `self.lenb`, `len` is `self.len`, `v` is `self.v`,
`raw` is `self.raw` (which `_parse` sets to the whole buffer it was given),
`constructedB` is `self.constructed`, `items` is `self.items` and
`remlen` is `self.remlen = len(self.tag + self.lenb) + len(v)`. -/
inductive TNode : Type where
  | mk (t lenb : List Nat) (len : Nat) (v raw : List Nat)
       (constructedB : Bool) (items : List TNode) (remlen : Nat) : TNode
deriving Repr

def TNode.t : TNode → List Nat
  | ⟨x, _, _, _, _, _, _, _⟩ => x

def TNode.lenb : TNode → List Nat
  | ⟨_, x, _, _, _, _, _, _⟩ => x

def TNode.len : TNode → Nat
  | ⟨_, _, x, _, _, _, _, _⟩ => x

def TNode.v : TNode → List Nat
  | ⟨_, _, _, x, _, _, _, _⟩ => x

def TNode.raw : TNode → List Nat
  | ⟨_, _, _, _, x, _, _, _⟩ => x

def TNode.constructedB : TNode → Bool
  | ⟨_, _, _, _, _, x, _, _⟩ => x

def TNode.items : TNode → List TNode
  | ⟨_, _, _, _, _, _, x, _⟩ => x

def TNode.remlen : TNode → Nat
  | ⟨_, _, _, _, _, _, _, x⟩ => x

/-- `T._parse` (mode `true`) together with the child-parsing `while` loop of
its constructed branch (mode `false`), as one fuel-indexed function so that
the recursion is structural.  Mode `true` on `data`: read the tag, read the
length, take `v = data[:l]`, and for a constructed tag
(`ord(t[0]) & 0x20 == 0x20`, i.e. `t₀ / 32 % 2 = 1`) run the loop
`while len(v) > 0: ncls = T(tohex(v)); v = v[ncls.remlen:]` (mode `false`).
Every successful parse records `raw = data` — `_parse` saves the whole
buffer, trailing bytes included.  The fuel only has to dominate the call
depth; `2*|data| + 2` is ample since every nesting or sibling step consumes
at least two bytes of buffer for two units of fuel. -/
def parseS : Nat → Bool → List Nat → Option (TNode ⊕ List TNode)
  | 0, _, _ => none
  | fuel + 1, true, data =>
    match parseTag data with
    | none => none
    | some (t, r1) =>
      match parseLen r1 with
      | none => none
      | some (lenb, l, _r2) =>
        let v := _r2.take l
        if t.headD 0 / 32 % 2 = 1 then
          match parseS fuel false v with
          | some (.inr items) =>
            some (.inl ⟨t, lenb, l, v, data, true, items,
                        t.length + lenb.length + v.length⟩)
          | _ => none
        else
          some (.inl ⟨t, lenb, l, v, data, false, [],
                      t.length + lenb.length + v.length⟩)
  | _ + 1, false, [] => some (.inr [])
  | fuel + 1, false, v@(_ :: _) =>
    match parseS fuel true v with
    | some (.inl n) =>
      match parseS fuel false (v.drop n.remlen) with
      | some (.inr ns) => some (.inr (n :: ns))
      | _ => none
    | _ => none

/-- Top-level parsing constructor `T(hexdata)` (PARSING MODE of
`T.__init__`), at the byte level: `self._parse(fromhex(arg1))`. -/
def T_parse (data : List Nat) : Option TNode :=
  match parseS (2 * data.length + 2) true data with
  | some (.inl n) => some n
  | _ => none

/-- BUILDING MODE of `T.__init__` for a primitive tag:
after `assert validhex(arg1)`, `tag = fromhex(arg1)`,
`assert validhextag(arg1)` (tag is 1 or 2 bytes of valid hex) and
`primitive(tag)`, it runs `data = maketlv(tag, fromhex(arg2))` followed by
`self._parse(data)`.  Failed asserts are `none`. -/
def buildPrimitive (tag value : List Nat) : Option TNode :=
  if (tag.length = 1 ∨ tag.length = 2) ∧ (∀ b ∈ tag, b < 256) ∧
      (∀ b ∈ value, b < 256) ∧ ¬ tag.headD 0 / 32 % 2 = 1 then
    (maketlv tag value).bind T_parse
  else none

/-- An element of `arg2` in building mode for a constructed tag: either a
parsable TLV byte string or an already built `T` object. -/
inductive BItem : Type where
  | hexData (s : List Nat) : BItem
  | node (n : TNode) : BItem

/-- `T(item)` for a string item, the item itself for a `T` item. -/
def resolveItem : BItem → Option TNode
  | .hexData s => T_parse s
  | .node n => some n

/-- BUILDING MODE of `T.__init__` for a constructed tag: each item of the
list is parsed (strings) or taken as is (`T` objects), then
`value = "".join(t.raw for t in items)`, `data = maketlv(tag, value)` and
`self._parse(data)`. -/
def buildConstructed (tag : List Nat) (its : List BItem) : Option TNode :=
  if (tag.length = 1 ∨ tag.length = 2) ∧ (∀ b ∈ tag, b < 256) ∧
      tag.headD 0 / 32 % 2 = 1 then
    match its.mapM resolveItem with
    | none => none
    | some ns =>
      (maketlv tag (ns.map TNode.raw).flatten).bind T_parse
  else none

/-- `tohex` for a single byte: two uppercase hex digits, as produced by
`b2a_hex(..).upper()`. -/
def hexByteChars (b : Nat) : List Char :=
  let d := fun n => if n < 10 then Char.ofNat (48 + n) else Char.ofNat (55 + n)
  [d (b / 16), d (b % 16)]

/-- `tohex(string)` from tlv.py: uppercase hex text of a byte string. -/
def tohex (bs : List Nat) : List Char :=
  (bs.map hexByteChars).flatten

mutual

/-- `T.search(tag)` from tlv.py: for a constructed node it returns
`list(chain(*[t.search(tag) for t in self.items]))`, and for a primitive
node it returns `[self]` exactly when `tag == self.tagh` (text equality
against the uppercase hex of the tag), else `[]`. -/
def search : TNode → List Char → List TNode
  | ⟨t, lenb, len, v, raw, cb, items, remlen⟩, tag =>
    if cb then searchList items tag
    else if tag = tohex t then [⟨t, lenb, len, v, raw, cb, items, remlen⟩]
    else []

/-- The `chain` over the items list inside `T.search`. -/
def searchList : List TNode → List Char → List TNode
  | [], _ => []
  | n :: ns, tag => search n tag ++ searchList ns tag

end

/-- `T.findone(tag)` from tlv.py: `results = self.search(tag)`; one result
is returned, zero results give `None`, and more than one raises
`Exception("Found %d tags when expected to find exactly 1 ...")`
(modelled as `Except.error` carrying the message text). -/
def findone (n : TNode) (tag : List Char) : Except String (Option TNode) :=
  let results := search n tag
  if results.length = 1 then .ok results.head?
  else if results.length = 0 then .ok none
  else .error ("Found " ++ toString results.length ++
    " tags when expected to find exactly 1 during tag search")

mutual

/-- The primitive nodes of the subtree in depth-first encounter order.
This is the spec-side comparator for the amended search claim: `search`
visits the whole subtree depth-first but only primitive nodes are
candidates. -/
def dfsPrimitives : TNode → List TNode
  | ⟨t, lenb, len, v, raw, cb, items, remlen⟩ =>
    if cb then dfsPrimitivesList items
    else [⟨t, lenb, len, v, raw, cb, items, remlen⟩]

/-- `dfsPrimitives` mapped over a list of nodes. -/
def dfsPrimitivesList : List TNode → List TNode
  | [] => []
  | n :: ns => dfsPrimitives n ++ dfsPrimitivesList ns

end

/-! ### src/tools/pyscripts/scdtrace.py -/

/-- `CAPDU.__init__(hexstring)`: `header = hexstring[:10]` and the rest is
`data`, but only when the string has at least 10 hex digits (5 bytes);
otherwise `header` stays `""` and `data` is the whole string (or `""`). -/
structure CAPDU where
  hexstring : List Char
  header : List Char
  data : List Char
deriving Repr, DecidableEq

def mkCAPDU (hx : List Char) : CAPDU :=
  if 10 ≤ hx.length then ⟨hx, hx.take 10, hx.drop 10⟩ else ⟨hx, [], hx⟩

/-- `RAPDU.__init__(hexstring)`: `status = hexstring[:4]` (2 bytes) and the
rest is `data`, but only when the string has at least 4 hex digits. -/
structure RAPDU where
  hexstring : List Char
  status : List Char
  data : List Char
deriving Repr, DecidableEq

def mkRAPDU (hx : List Char) : RAPDU :=
  if 4 ≤ hx.length then ⟨hx, hx.take 4, hx.drop 4⟩ else ⟨hx, [], hx⟩

/-- `s[a:b]` on text, for `a ≤ b` positions (python slice). -/
def slice (s : List Char) (a b : Nat) : List Char :=
  (s.drop a).take (b - a)

/-- The substring `sub` occurs in `s` at position `i`
(`s[i:i+len(sub)] == sub`). -/
def matchesAt (s sub : List Char) (i : Nat) : Prop :=
  (s.drop i).take sub.length = sub

instance (s sub : List Char) (i : Nat) : Decidable (matchesAt s sub i) := by
  unfold matchesAt; infer_instance

/-- Helper for python `str.find(sub, start)`: try positions
`start, start+1, ...` for `fuel` steps. -/
def strFindAux (s sub : List Char) : Nat → Nat → Option Nat
  | _, 0 => none
  | start, fuel + 1 =>
    if matchesAt s sub start then some start
    else strFindAux s sub (start + 1) fuel

/-- Python `hexstring.find(sub, start, end)` with `end = len(hexstring)`,
which is how every `find` in `SCDTrace.parse` is called: the least
`i ≥ start` with `s[i:i+len(sub)] == sub`, else `none` (python `-1`). -/
def strFind (s sub : List Char) (start : Nat) : Option Nat :=
  strFindAux s sub start (s.length + 1 - start)

def startMarker : List Char := List.replicate 10 'D'
def commandMarker : List Char := List.replicate 10 'C'
def responseMarker : List Char := List.replicate 10 'A'
def endMarker : List Char := List.replicate 10 'B'

/-- The `while done == 0` loop of `SCDTrace.parse` (pyscripts/scdtrace.py),
entered with `pos` at a command marker: `pos2 = find(responsestr, pos)`
(return on failure, dropping the pending command); the command is
`hexstring[pos+10:pos2]`; `pos = find(commandstr, pos2)`; if found, the
response is `hexstring[pos2+10:pos]`, the pair is appended and the loop
continues; otherwise `pos = find(endstr, pos2)` (return on failure,
dropping the pending command) and the final pair uses
`hexstring[pos2+10:pos]`.  The fuel is structural bookkeeping; each real
iteration moves `pos` strictly forward, so `len(s)+1` never runs out. -/
def scdloop (s : List Char) : Nat → Nat → List (CAPDU × RAPDU)
  | _, 0 => []
  | pos, fuel + 1 =>
    match strFind s responseMarker pos with
    | none => []
    | some pos2 =>
      let command := mkCAPDU (slice s (pos + commandMarker.length) pos2)
      match strFind s commandMarker pos2 with
      | some pos3 =>
        (command, mkRAPDU (slice s (pos2 + responseMarker.length) pos3)) ::
          scdloop s pos3 fuel
      | none =>
        match strFind s endMarker pos2 with
        | none => []
        | some pos4 =>
          [(command, mkRAPDU (slice s (pos2 + responseMarker.length) pos4))]

/-- `SCDTrace.parse(hexstring)` from pyscripts/scdtrace.py: find the start
marker `DDDDDDDDDD`, then the first command marker `CCCCCCCCCC` after it,
then run the command/response loop.  Returns `self.items`. -/
def scdparse (s : List Char) : List (CAPDU × RAPDU) :=
  match strFind s startMarker 0 with
  | none => []
  | some start =>
    match strFind s commandMarker (start + startMarker.length) with
    | none => []
    | some pos => scdloop s pos (s.length + 1)

/-! ### src/tools/pytools/scdtrace.py -/

/-- The `while i < data_len` loop of `SCDTrace.split_events`.  `r` is the
remaining nibble string `data[i:]`; `int(data[i:i+2], 16)` is
`16*a + b` when two nibbles remain and `a` for a final lone nibble;
`byte_type = (byte_value & 0xFF) >> 2`, `bytes_following =
(byte_value & 0x03) + 1`.  If `bytes_following*2 > data_len - i` the loop
breaks (truncated log) and, as after a normal exit, the pending
`(last_type, event_data)` is appended.  A first record replaces the
initial `last_type = 0xFF`; a type change flushes the pending event;
otherwise the payload nibbles are appended to the pending event. -/
def splitLoop (r : List Nat) (lastType : Nat) (eventData : List Nat)
    (acc : List (Nat × List Nat)) : List (Nat × List Nat) :=
  match r with
  | [] => acc ++ [(lastType, eventData)]
  | a :: rest =>
    let byteValue := match rest with | b :: _ => 16 * a + b | [] => a
    let r2 := rest.drop 1
    let byteType := byteValue % 256 / 4
    let bytesFollowing := byteValue % 4 + 1
    if bytesFollowing * 2 > r2.length then acc ++ [(lastType, eventData)]
    else
      let lastType2 := if lastType = 255 then byteType else lastType
      if byteType ≠ lastType2 then
        splitLoop (r2.drop (bytesFollowing * 2)) byteType
          (r2.take (bytesFollowing * 2)) (acc ++ [(lastType2, eventData)])
      else
        splitLoop (r2.drop (bytesFollowing * 2)) lastType2
          (eventData ++ r2.take (bytesFollowing * 2)) acc
termination_by r.length
decreasing_by
  all_goals simp [List.length_drop]; omega

/-- `SCDTrace.split_events(data)` from pytools/scdtrace.py, on the
nibble-indexed hex string `data` (one list entry per hex character). -/
def split_events (data : List Nat) : List (Nat × List Nat) :=
  splitLoop data 0xFF [] []

/-- The keys of `self.event_dict` built in `SCDTrace.__init__`
(pytools/scdtrace.py), with their names. -/
def event_dict : List (Nat × String) :=
  [(0x00, "ATR Byte from ICC"),
   (0x01, "ATR Byte to Terminal"),
   (0x02, "Byte to Terminal"),
   (0x03, "Byte from Terminal"),
   (0x04, "Byte to ICC"),
   (0x05, "Byte from ICC"),
   (0x06, "ATR from USB"),
   (0x10, "Terminal clock active"),
   (0x11, "Terminal reset low"),
   (0x12, "Terminal timed out"),
   (0x13, "Error receiving byte from terminal"),
   (0x14, "Error sending byte to terminal"),
   (0x15, "No clock from terminal"),
   (0x20, "ICC activated"),
   (0x21, "ICC deactivated"),
   (0x22, "ICC reset high"),
   (0x23, "Error receiving byte from ICC"),
   (0x24, "Error sending byte to ICC"),
   (0x25, "ICC inserted"),
   (0x30, "Time data sent to ICC"),
   (0x31, "Time for a general event"),
   (0x32, "Error allocating memory"),
   (0x33, "Watchdog timer reset")]

/-! ### Lemmas about the TLV parser -/

/-- `_parse` stores the entire buffer it is handed in `self.raw`. -/
lemma parseS_raw : ∀ (f : Nat) (data : List Nat) (n : TNode),
    parseS f true data = some (.inl n) → n.raw = data := by
  intro f data n h
  match f with
  | 0 => simp [parseS] at h
  | f + 1 =>
    simp only [parseS] at h
    split at h
    · exact absurd h (by simp)
    · split at h
      · exact absurd h (by simp)
      · split at h
        · split at h
          · simp only [Option.some.injEq, Sum.inl.injEq] at h
            subst h; rfl
          · exact absurd h (by simp)
        · simp only [Option.some.injEq, Sum.inl.injEq] at h
          subst h; rfl

/-- `T(hexdata)` stores the entire parsed buffer in `self.raw`. -/
lemma T_parse_raw {data : List Nat} {n : TNode}
    (h : T_parse data = some n) : n.raw = data := by
  unfold T_parse at h
  split at h
  · next hp =>
    simp only [Option.some.injEq] at h
    subst h
    exact parseS_raw _ _ _ hp
  · exact absurd h (by simp)

/-! ### Claim theorems -/

/-- C1: For every valid primitive TLV node built from a tag and a value,
and for every valid constructed node built from a tag and an ordered list
of children, re-parsing the node's raw encoding (`T._parse` applied to the
bytes produced by `maketlv`) yields a node whose raw encoding equals the
original byte-for-byte (indeed the very same node): building ends in
`self._parse(data)` which stores the whole buffer as `self.raw`, and
re-parsing that buffer is the identical computation. -/
theorem tlv_build_parse_roundtrip :
    (∀ (tag value : List Nat) (n : TNode),
      buildPrimitive tag value = some n → T_parse n.raw = some n) ∧
    (∀ (tag : List Nat) (its : List BItem) (n : TNode),
      buildConstructed tag its = some n → T_parse n.raw = some n) := by
  constructor
  · intro tag value n h
    unfold buildPrimitive at h
    split at h
    · cases hmk : maketlv tag value with
      | none => rw [hmk] at h; simp at h
      | some d =>
        rw [hmk] at h
        simp only [Option.some_bind] at h
        rw [T_parse_raw h]
        exact h
    · exact absurd h (by simp)
  · intro tag its n h
    unfold buildConstructed at h
    split at h
    · split at h
      · exact absurd h (by simp)
      · cases hmk : maketlv tag _ with
        | none => rw [hmk] at h; simp at h
        | some d =>
          rw [hmk] at h
          simp only [Option.some_bind] at h
          rw [T_parse_raw h]
          exact h
    · exact absurd h (by simp)

/-- Witness for C1: a concrete primitive build (tag `84`, value `010203`)
and a concrete constructed build (tag `6F` with one child `8401AB`), both
of which re-parse to themselves. -/
theorem tlv_build_parse_roundtrip_witness :
    buildPrimitive [0x84] [1, 2, 3] =
      some ⟨[0x84], [3], 3, [1, 2, 3], [0x84, 3, 1, 2, 3], false, [], 5⟩ ∧
    T_parse (TNode.raw ⟨[0x84], [3], 3, [1, 2, 3], [0x84, 3, 1, 2, 3], false, [], 5⟩) =
      some ⟨[0x84], [3], 3, [1, 2, 3], [0x84, 3, 1, 2, 3], false, [], 5⟩ ∧
    buildConstructed [0x6F] [.hexData [0x84, 1, 0xAB]] =
      some ⟨[0x6F], [3], 3, [0x84, 1, 0xAB], [0x6F, 3, 0x84, 1, 0xAB], true,
        [⟨[0x84], [1], 1, [0xAB], [0x84, 1, 0xAB], false, [], 3⟩], 5⟩ ∧
    T_parse (TNode.raw ⟨[0x6F], [3], 3, [0x84, 1, 0xAB], [0x6F, 3, 0x84, 1, 0xAB], true,
        [⟨[0x84], [1], 1, [0xAB], [0x84, 1, 0xAB], false, [], 3⟩], 5⟩) =
      some ⟨[0x6F], [3], 3, [0x84, 1, 0xAB], [0x6F, 3, 0x84, 1, 0xAB], true,
        [⟨[0x84], [1], 1, [0xAB], [0x84, 1, 0xAB], false, [], 3⟩], 5⟩ :=
  ⟨rfl, tlv_build_parse_roundtrip.1 [0x84] [1, 2, 3] _ rfl,
   rfl, tlv_build_parse_roundtrip.2 [0x6F] [.hexData [0x84, 1, 0xAB]] _ rfl⟩

/-- `T_parse` with the fuel written as `... + 1` so that the `parseS`
equation lemmas apply. -/
lemma T_parse_succ (data : List Nat) :
    T_parse data =
      match parseS (2 * data.length + 1 + 1) true data with
      | some (.inl n) => some n
      | _ => none := rfl

/-- One full parse step for a primitive single-byte tag with a 1-byte
(short form) length field. -/
lemma parseS_prim_short (f t l : Nat) (rest : List Nat)
    (h31 : t % 32 ≠ 31) (hcb : t / 32 % 2 ≠ 1) (hl : l / 128 % 2 ≠ 1) :
    parseS (f + 1) true (t :: l :: rest) =
      some (.inl ⟨[t], [l], l, rest.take l, t :: l :: rest, false, [],
        2 + (rest.take l).length⟩) := by
  simp [parseS, parseTag, parseLen, h31, hcb, hl]

/-- One full parse step for a primitive single-byte tag with a high-bit
first length byte: two length bytes are consumed and the length is
`first * 256 + second` (the full first byte, high bit included). -/
lemma parseS_prim_long (f t l1 l2 : Nat) (rest : List Nat)
    (h31 : t % 32 ≠ 31) (hcb : t / 32 % 2 ≠ 1) (hl : l1 / 128 % 2 = 1) :
    parseS (f + 1) true (t :: l1 :: l2 :: rest) =
      some (.inl ⟨[t], [l1, l2], l1 * 256 + l2, rest.take (l1 * 256 + l2),
        t :: l1 :: l2 :: rest, false, [],
        2 + ((rest.take (l1 * 256 + l2)).length + 1)⟩) := by
  simp [parseS, parseTag, parseLen, h31, hcb, hl]
  omega

/-- C3 counterexample: the buffer `410505AA`... wait `4105AA` declares
length `5` with only one value byte remaining, and `T._parse` succeeds,
returning a node with `len = 5` and the truncated value `AA` — python
slicing does not raise, so parsing does NOT fail when the declared length
exceeds the remaining bytes, contradicting the claim. -/
theorem tlv_overlong_declared_length_counterexample :
    (T_parse [0x41, 0x05, 0xAA]).isSome = true ∧
    (T_parse [0x41, 0x05, 0xAA]).map (fun n => (n.len, n.v)) = some (5, [0xAA]) := by
  constructor <;> decide

/-- C3 amended: `T._parse` fails on an empty buffer, on a buffer that ends
before the length byte, on a two-byte tag (low five tag bits all set)
whose second byte is absent, and on a high-bit first length byte whose
second length byte is absent; but when the declared length of a primitive
node exceeds the bytes remaining after the length field, parsing succeeds
and returns a node whose value is silently truncated to the remaining
bytes. -/
theorem tlv_parse_failure_cases :
    T_parse [] = none ∧
    (∀ t : Nat, t % 32 = 31 → T_parse [t] = none) ∧
    (∀ t : Nat, t % 32 ≠ 31 → T_parse [t] = none) ∧
    (∀ t l1 : Nat, t % 32 ≠ 31 → l1 / 128 % 2 = 1 → T_parse [t, l1] = none) ∧
    (∀ (t l : Nat) (rest : List Nat), t % 32 ≠ 31 → t / 32 % 2 ≠ 1 →
      l / 128 % 2 ≠ 1 → rest.length < l →
      (T_parse (t :: l :: rest)).map (fun n => (n.len, n.v)) = some (l, rest)) := by
  refine ⟨rfl, ?_, ?_, ?_, ?_⟩
  · intro t h
    rw [T_parse_succ]
    simp [parseS, parseTag, h]
  · intro t h
    rw [T_parse_succ]
    simp [parseS, parseTag, parseLen, h]
  · intro t l1 h h1
    rw [T_parse_succ]
    simp [parseS, parseTag, parseLen, h, h1]
  · intro t l rest h31 hcb hl hlen
    rw [T_parse_succ]
    rw [show 2 * (t :: l :: rest).length + 1 = 2 * rest.length + 4 + 1 by
      simp [List.length_cons]; ring]
    rw [parseS_prim_short _ t l rest h31 hcb hl]
    simp [TNode.len, TNode.v, List.take_of_length_le (Nat.le_of_lt hlen)]

/-- Witness for C3 amended: concrete instances of every failure case and of
the truncated-success case (`4105AA`: declared length 5, one byte left). -/
theorem tlv_parse_failure_cases_witness :
    T_parse [] = none ∧
    T_parse [0x5F] = none ∧
    T_parse [0x41] = none ∧
    T_parse [0x41, 0x81] = none ∧
    (T_parse [0x41, 0x05, 0xAA]).map (fun n => (n.len, n.v)) = some (5, [0xAA]) :=
  ⟨tlv_parse_failure_cases.1,
   tlv_parse_failure_cases.2.1 0x5F (by decide),
   tlv_parse_failure_cases.2.2.1 0x41 (by decide),
   tlv_parse_failure_cases.2.2.2.1 0x41 0x81 (by decide) (by decide),
   tlv_parse_failure_cases.2.2.2.2 0x41 0x05 [0xAA] (by decide) (by decide)
     (by decide) (by decide)⟩

/-- C4 counterexample: for the buffer `418100` the first length byte `81`
has its high bit set; the code decodes the length as
`0x81 * 256 + 0x00 = 33024` (the FULL first byte times 256 plus the second
byte), not `(0x81 & 0x7F) * 256 + 0x00 = 256` as the claim's
"low 7 bits of the first byte plus a second byte" states. -/
theorem tlv_two_byte_length_counterexample :
    (T_parse [0x41, 0x81, 0x00]).map TNode.len = some 33024 ∧
    (33024 : Nat) ≠ (0x81 % 128) * 256 + 0x00 := by
  constructor <;> decide

/-- C4 amended: for a primitive single-byte-tag buffer, if the high bit of
the first length byte is 0 the length is that byte's value and one length
byte is consumed; otherwise exactly two length bytes are consumed and the
length is the FULL first byte (high bit included) times 256 plus the
second byte. -/
theorem tlv_length_decoding (t l1 l2 : Nat) (rest : List Nat)
    (h31 : t % 32 ≠ 31) (hcb : t / 32 % 2 ≠ 1) :
    (l1 / 128 % 2 ≠ 1 →
      (T_parse (t :: l1 :: rest)).map (fun n => (n.lenb, n.len)) =
        some ([l1], l1)) ∧
    (l1 / 128 % 2 = 1 →
      (T_parse (t :: l1 :: l2 :: rest)).map (fun n => (n.lenb, n.len)) =
        some ([l1, l2], l1 * 256 + l2)) := by
  constructor
  · intro hl
    rw [T_parse_succ]
    rw [show 2 * (t :: l1 :: rest).length + 1 = 2 * rest.length + 4 + 1 by
      simp [List.length_cons]; ring]
    rw [parseS_prim_short _ t l1 rest h31 hcb hl]
    simp [TNode.lenb, TNode.len]
  · intro hl
    rw [T_parse_succ]
    rw [show 2 * (t :: l1 :: l2 :: rest).length + 1 = 2 * rest.length + 6 + 1 by
      simp [List.length_cons]; ring]
    rw [parseS_prim_long _ t l1 l2 rest h31 hcb hl]
    simp [TNode.lenb, TNode.len]

/-- Witness for C4 amended: `410505` decodes length 5 from one length byte;
`41810007` decodes length 33024 from the two length bytes `81 00`. -/
theorem tlv_length_decoding_witness :
    (T_parse [0x41, 0x05, 0x07]).map (fun n => (n.lenb, n.len)) = some ([0x05], 5) ∧
    (T_parse [0x41, 0x81, 0x00, 0x07]).map (fun n => (n.lenb, n.len)) =
      some ([0x81, 0x00], 33024) :=
  ⟨(tlv_length_decoding 0x41 0x05 0 [0x07] (by decide) (by decide)).1 (by decide),
   (tlv_length_decoding 0x41 0x81 0x00 [0x07] (by decide) (by decide)).2 (by decide)⟩

/-- C5 counterexample: `maketlv` on tag `41` and a value of exactly 256
bytes emits `82 01 00` followed by the value — the tag is dropped, so the
output is not the tag followed by the (2-byte, spec form
`low-7-bits * 256 + second byte`) length field `81 00`. -/
theorem maketlv_256_counterexample :
    maketlv [0x41] (List.replicate 256 0) =
      some ([0x82, 1, 0] ++ List.replicate 256 0) ∧
    [0x82, 1, 0] ++ List.replicate 256 0 ≠
      [0x41, 0x81, 0x00] ++ List.replicate 256 0 := by
  constructor
  · rfl
  · decide

/-- C5 amended: a value of exactly 255 bytes (in fact any value under 256
bytes) is encoded as `tag ++ length-byte ++ value` with a single length
byte; a value of exactly 256 bytes (in fact any value of 256..65535 bytes)
is encoded as the fixed byte `82` (high bit set) followed by the 2-byte
big-endian length and the value, with the tag omitted from the output;
the switch between the two forms happens exactly at 256 bytes. -/
theorem maketlv_length_threshold :
    (∀ tag v : List Nat, v.length = 255 → maketlv tag v = some (tag ++ 255 :: v)) ∧
    (∀ tag v : List Nat, v.length = 256 →
      maketlv tag v = some (0x82 :: 0x01 :: 0x00 :: v)) ∧
    (∀ tag v : List Nat, v.length < 256 →
      maketlv tag v = some (tag ++ v.length :: v)) ∧
    (∀ tag v : List Nat, 256 ≤ v.length → v.length < 65536 →
      maketlv tag v = some (0x82 :: v.length / 256 :: v.length % 256 :: v)) := by
  refine ⟨?_, ?_, ?_, ?_⟩
  · intro tag v h
    simp [maketlv, h]
  · intro tag v h
    simp [maketlv, h]
  · intro tag v h
    simp [maketlv, h]
  · intro tag v h1 h2
    simp [maketlv, Nat.not_lt.mpr h1, h2]

/-- Witness for C5 amended: tag `41` with a 255-byte value keeps the tag
and uses the single length byte `FF`; with a 256-byte value the output is
`82 01 00` plus the value. -/
theorem maketlv_length_threshold_witness :
    maketlv [0x41] (List.replicate 255 7) =
      some ([0x41] ++ 255 :: List.replicate 255 7) ∧
    maketlv [0x41] (List.replicate 256 7) =
      some (0x82 :: 0x01 :: 0x00 :: List.replicate 256 7) :=
  ⟨maketlv_length_threshold.1 [0x41] (List.replicate 255 7) (by decide),
   maketlv_length_threshold.2.1 [0x41] (List.replicate 256 7) (by decide)⟩

/-- `searchList` agrees with the filtered depth-first primitives, given the
same fact for every member of the list. -/
lemma searchList_eq_of (tag : List Char) (its : List TNode)
    (ih : ∀ m ∈ its, search m tag =
      (dfsPrimitives m).filter (fun p => decide (tag = tohex p.t))) :
    searchList its tag =
      (dfsPrimitivesList its).filter (fun p => decide (tag = tohex p.t)) := by
  induction its with
  | nil => simp [searchList, dfsPrimitivesList]
  | cons m ms ihms =>
    rw [searchList, dfsPrimitivesList, List.filter_append]
    rw [ih m (by simp)]
    rw [ihms (fun p hp => ih p (by simp [hp]))]

/-- `search` returns exactly the primitive nodes of the depth-first
subtree traversal whose uppercase hex tag text equals the argument. -/
lemma search_eq_dfsFilter (tag : List Char) :
    ∀ (k : Nat) (n : TNode), sizeOf n ≤ k →
      search n tag = (dfsPrimitives n).filter (fun p => decide (tag = tohex p.t)) := by
  intro k
  induction k with
  | zero =>
    intro n hn
    obtain ⟨t, lenb, len, v, raw, cb, items, remlen⟩ := n
    simp [TNode.mk.sizeOf_spec] at hn
  | succ k ih =>
    intro n hn
    obtain ⟨t, lenb, len, v, raw, cb, items, remlen⟩ := n
    cases cb with
    | true =>
      rw [search, dfsPrimitives]
      simp only [if_true]
      refine searchList_eq_of tag items (fun m hm => ih m ?_)
      have h1 : sizeOf m < sizeOf items := List.sizeOf_lt_of_mem hm
      have h2 : sizeOf (TNode.mk t lenb len v raw true items remlen) ≤ k + 1 := hn
      simp [TNode.mk.sizeOf_spec] at h2
      omega
    | false =>
      rw [search, dfsPrimitives]
      by_cases htag : tag = tohex t
      · simp [htag, TNode.t, List.filter]
      · simp [htag, TNode.t, List.filter]

/-- C6 counterexample: a constructed node `6F` with one primitive child of
tag `8A`.  Searching for the lowercase hex text `8a` returns nothing even
though a node whose tag matches case-insensitively is present (its `tagh`
is the uppercase `8A`), so the comparison is NOT case-insensitive. -/
theorem tlv_search_case_counterexample :
    (search ⟨[0x6F], [3], 3, [0x8A, 1, 7], [0x6F, 3, 0x8A, 1, 7], true,
      [⟨[0x8A], [1], 1, [7], [0x8A, 1, 7], false, [], 3⟩], 5⟩ ['8', 'a']).length = 0 ∧
    (search ⟨[0x6F], [3], 3, [0x8A, 1, 7], [0x6F, 3, 0x8A, 1, 7], true,
      [⟨[0x8A], [1], 1, [7], [0x8A, 1, 7], false, [], 3⟩], 5⟩ ['8', 'A']).length = 1 := by
  constructor <;> rfl

/-- C6 amended: `T.search(tag)` performs a depth-first search over the
whole subtree and returns exactly the PRIMITIVE descendant nodes whose
tag, rendered as UPPERCASE hex text, equals the argument exactly
(case-sensitively; constructed nodes are never returned, even when their
own tag matches); `T.findone(tag)` returns `None` without error when there
are zero matches, returns the unique node when there is exactly one, and
raises an ambiguity error when more than one node matches. -/
theorem tlv_search_findone :
    (∀ (n : TNode) (tag : List Char),
      search n tag = (dfsPrimitives n).filter (fun p => decide (tag = tohex p.t))) ∧
    (∀ (n : TNode) (tag : List Char), (search n tag).length = 0 →
      findone n tag = .ok none) ∧
    (∀ (n : TNode) (tag : List Char), (search n tag).length = 1 →
      findone n tag = .ok (search n tag).head?) ∧
    (∀ (n : TNode) (tag : List Char), 2 ≤ (search n tag).length →
      findone n tag = .error ("Found " ++ toString (search n tag).length ++
        " tags when expected to find exactly 1 during tag search")) := by
  refine ⟨?_, ?_, ?_, ?_⟩
  · intro n tag
    exact search_eq_dfsFilter tag (sizeOf n) n le_rfl
  · intro n tag h
    simp [findone, h]
  · intro n tag h
    simp [findone, h]
  · intro n tag h
    have h1 : (search n tag).length ≠ 1 := by omega
    have h0 : (search n tag).length ≠ 0 := by omega
    simp [findone, h1, h0]

/-- Witness for C6: concrete zero-match, one-match and two-match trees. -/
theorem tlv_search_findone_witness :
    findone ⟨[0x84], [1], 1, [7], [0x84, 1, 7], false, [], 3⟩ ['8', 'A'] =
      .ok none ∧
    findone ⟨[0x8A], [1], 1, [7], [0x8A, 1, 7], false, [], 3⟩ ['8', 'A'] =
      .ok (some ⟨[0x8A], [1], 1, [7], [0x8A, 1, 7], false, [], 3⟩) ∧
    findone ⟨[0x6F], [6], 6, [0x8A, 1, 7, 0x8A, 1, 9],
        [0x6F, 6, 0x8A, 1, 7, 0x8A, 1, 9], true,
        [⟨[0x8A], [1], 1, [7], [0x8A, 1, 7, 0x8A, 1, 9], false, [], 3⟩,
         ⟨[0x8A], [1], 1, [9], [0x8A, 1, 9], false, [], 3⟩], 8⟩ ['8', 'A'] =
      .error ("Found 2 tags when expected to find exactly 1 during tag search") := by
  refine ⟨tlv_search_findone.2.1 _ ['8', 'A'] (by rfl), ?_, ?_⟩
  · have h := tlv_search_findone.2.2.1
      ⟨[0x8A], [1], 1, [7], [0x8A, 1, 7], false, [], 3⟩ ['8', 'A'] (by rfl)
    exact h
  · have h := tlv_search_findone.2.2.2
      ⟨[0x6F], [6], 6, [0x8A, 1, 7, 0x8A, 1, 9],
        [0x6F, 6, 0x8A, 1, 7, 0x8A, 1, 9], true,
        [⟨[0x8A], [1], 1, [7], [0x8A, 1, 7, 0x8A, 1, 9], false, [], 3⟩,
         ⟨[0x8A], [1], 1, [9], [0x8A, 1, 9], false, [], 3⟩], 8⟩ ['8', 'A'] (by rfl)
    exact h

/-! ### Lemmas about the event-log declusterer -/

/-- Loop-exit equation: an empty remainder appends the pending event. -/
lemma splitLoop_nil (lt : Nat) (ed : List Nat) (acc : List (Nat × List Nat)) :
    splitLoop [] lt ed acc = acc ++ [(lt, ed)] := by
  simp only [splitLoop.eq_def]

/-- One complete record at the head of the remainder: the header `a b`
declares exactly `payload` (of the declared nibble length), the rest of
the buffer is `X`, and the loop consumes the record, coalescing or
flushing according to the type. -/
lemma splitLoop_cons_step (a b : Nat) (payload X : List Nat) (lt : Nat)
    (ed : List Nat) (acc : List (Nat × List Nat))
    (hplen : payload.length = ((16 * a + b) % 4 + 1) * 2) :
    splitLoop (a :: b :: (payload ++ X)) lt ed acc =
      if (16 * a + b) % 256 / 4 ≠ (if lt = 255 then (16 * a + b) % 256 / 4 else lt) then
        splitLoop X ((16 * a + b) % 256 / 4) payload
          (acc ++ [((if lt = 255 then (16 * a + b) % 256 / 4 else lt), ed)])
      else
        splitLoop X (if lt = 255 then (16 * a + b) % 256 / 4 else lt)
          (ed ++ payload) acc := by
  rw [splitLoop.eq_def]
  simp only [List.drop_one, List.tail_cons]
  rw [List.take_left' hplen, List.drop_left' hplen]
  rw [if_neg (by simp [List.length_append, hplen])]

/-- The loop always lengthens the accumulator by at least the pending
event appended after the scan. -/
lemma splitLoop_length :
    ∀ (k : Nat) (r : List Nat), r.length ≤ k →
      ∀ (lt : Nat) (ed : List Nat) (acc : List (Nat × List Nat)),
        acc.length + 1 ≤ (splitLoop r lt ed acc).length := by
  intro k
  induction k with
  | zero =>
    intro r hr lt ed acc
    have : r = [] := List.eq_nil_of_length_eq_zero (Nat.le_zero.mp hr)
    subst this
    rw [splitLoop_nil]
    simp
  | succ k ih =>
    intro r hr lt ed acc
    cases r with
    | nil =>
      rw [splitLoop_nil]
      simp
    | cons a rest =>
      rw [splitLoop.eq_def]
      simp only [List.drop_one]
      split
      · simp
      · split <;> split <;>
          (refine le_trans ?_ (ih _ ?_ _ _ _) <;>
            first
              | omega
              | (simp only [List.length_append, List.length_cons,
                  List.length_nil]; omega)
              | (simp only [List.length_drop, List.length_tail]
                 simp only [List.length_cons] at hr
                 omega))

/-- The buffer begins with a record whose header declares more payload
bytes than remain after it (reading the header consumes two nibbles when
available, else the lone final nibble). -/
def truncRecordB : List Nat → Bool
  | [] => false
  | a :: rest =>
    decide ((((match rest with | b :: _ => 16 * a + b | [] => a) % 4 + 1) * 2)
      > (rest.drop 1).length)

/-- A whole number of complete log records: each record is a two-nibble
header `a b` followed by exactly the `((16*a+b) % 4 + 1)` payload bytes
(`* 2` nibbles) it declares. -/
inductive Records : List Nat → Prop where
  | nil : Records []
  | cons (a b : Nat) (payload rest : List Nat)
      (hp : payload.length = ((16 * a + b) % 4 + 1) * 2)
      (h : Records rest) : Records (a :: b :: (payload ++ rest))

/-- Hitting a truncated record stops the loop and flushes the pending
event, whatever the accumulated state is. -/
lemma splitLoop_truncated (tail : List Nat) (ht : truncRecordB tail = true) :
    ∀ (lt : Nat) (ed : List Nat) (acc : List (Nat × List Nat)),
      splitLoop tail lt ed acc = acc ++ [(lt, ed)] := by
  intro lt ed acc
  match tail with
  | [] => simp [truncRecordB] at ht
  | a :: rest =>
    rw [splitLoop.eq_def]
    simp only [truncRecordB, decide_eq_true_eq] at ht
    simp only [List.drop_one, gt_iff_lt, List.drop_one] at ht ⊢
    rw [if_pos ht]

/-- Processing a prefix of complete records is unaffected by appending a
truncated record behind it. -/
lemma splitLoop_append_trunc (tail : List Nat) (ht : truncRecordB tail = true) :
    ∀ (p : List Nat), Records p → ∀ (lt : Nat) (ed : List Nat)
      (acc : List (Nat × List Nat)),
      splitLoop (p ++ tail) lt ed acc = splitLoop p lt ed acc := by
  intro p hp
  induction hp with
  | nil =>
    intro lt ed acc
    rw [List.nil_append, splitLoop_truncated tail ht, splitLoop_nil]
  | cons a b payload rest hplen hrec ih =>
    intro lt ed acc
    have hassoc : (a :: b :: (payload ++ rest)) ++ tail
        = a :: b :: (payload ++ (rest ++ tail)) := by
      simp [List.append_assoc]
    rw [hassoc, splitLoop_cons_step a b payload (rest ++ tail) lt ed acc hplen,
      splitLoop_cons_step a b payload rest lt ed acc hplen]
    by_cases hlt : lt = 255
    · simp only [if_pos hlt, ne_eq, eq_self_iff_true, not_true, if_false]
      exact ih _ _ _
    · simp only [if_neg hlt]
      by_cases hne : (16 * a + b) % 256 / 4 ≠ lt
      · simp only [if_pos hne]
        exact ih _ _ _
      · simp only [if_neg hne]
        exact ih _ _ _

/-- C9: for every log region consisting of complete records followed by a
record whose declared payload length exceeds the remaining bytes,
`split_events` stops at that record and returns exactly the events it
would return for the complete prefix alone — no error is raised (the
embedding of `split_events` is a total function; python's version indexes
only via slices, which cannot raise). -/
theorem split_events_truncated_log (p tail : List Nat) (hp : Records p)
    (ht : truncRecordB tail = true) :
    split_events (p ++ tail) = split_events p := by
  unfold split_events
  exact splitLoop_append_trunc tail ht p hp _ _ _

/-- Witness for C9: one complete record (type 5, two payload bytes
`99 99`) followed by a record whose header declares 4 payload bytes with
only half a byte left. -/
theorem split_events_truncated_log_witness :
    split_events ([1, 5, 9, 9, 9, 9] ++ [0, 7, 1]) = split_events [1, 5, 9, 9, 9, 9] :=
  split_events_truncated_log [1, 5, 9, 9, 9, 9] [0, 7, 1]
    (Records.cons 1 5 [9, 9, 9, 9] [] (by decide) Records.nil) (by decide)

/-- C8: two adjacent records carrying the same 6-bit type code `t` — a
header with bottom bits `01` (2 payload bytes) and its 4 payload nibbles,
then a header with bottom bits `00` (1 payload byte) and its 2 payload
nibbles — coalesce into a single event `(t, 3-byte payload)`, not two
events. -/
theorem split_events_coalesces (t a1 b1 a2 b2 p1 p2 p3 p4 q1 q2 : Nat)
    (ht : t < 64) (h1 : 16 * a1 + b1 = 4 * t + 1) (h2 : 16 * a2 + b2 = 4 * t) :
    split_events [a1, b1, p1, p2, p3, p4, a2, b2, q1, q2]
      = [(t, [p1, p2, p3, p4, q1, q2])] := by
  have e1 : (16 * a1 + b1) % 256 / 4 = t := by omega
  have e3 : (16 * a2 + b2) % 256 / 4 = t := by omega
  have e5 : ¬ (t = 255) := by omega
  unfold split_events
  rw [show [a1, b1, p1, p2, p3, p4, a2, b2, q1, q2]
      = a1 :: b1 :: ([p1, p2, p3, p4] ++ [a2, b2, q1, q2]) from rfl]
  rw [splitLoop_cons_step a1 b1 [p1, p2, p3, p4] [a2, b2, q1, q2] 255 [] []
    (by simp; omega)]
  simp only [e1, if_true, ne_eq, eq_self_iff_true, not_true, if_false,
    List.nil_append]
  rw [show [a2, b2, q1, q2] = a2 :: b2 :: ([q1, q2] ++ ([] : List Nat)) from rfl]
  rw [splitLoop_cons_step a2 b2 [q1, q2] [] t [p1, p2, p3, p4] []
    (by simp; omega)]
  simp only [e3, if_neg e5, ne_eq, eq_self_iff_true, not_true, if_false]
  rw [splitLoop_nil]
  simp

/-- Witness for C8: type 5, first record `15` + `1234`, second `14` + `56`,
giving the single event `(5, 123456)`. -/
theorem split_events_coalesces_witness :
    split_events [1, 5, 1, 2, 3, 4, 1, 4, 5, 6] = [(5, [1, 2, 3, 4, 5, 6])] :=
  split_events_coalesces 5 1 5 1 4 1 2 3 4 5 6 (by decide) (by decide) (by decide)

/-- C10 (implicit): `split_events` always returns a non-empty list because
the pending event is unconditionally appended after the scan loop; for the
empty input it returns exactly `[(255, "")]`, and the type code 255 lies
outside the 6-bit event-type space (`≥ 64`) and is absent from the keys of
`event_dict` used for rendering. -/
theorem split_events_nonempty :
    (∀ data : List Nat, 1 ≤ (split_events data).length) ∧
    split_events [] = [(255, [])] ∧
    (event_dict.map Prod.fst).contains 255 = false ∧
    64 ≤ 255 := by
  refine ⟨?_, ?_, ?_, ?_⟩
  · intro data
    have h := splitLoop_length data.length data le_rfl 255 [] []
    simpa [split_events] using h
  · rw [split_events, splitLoop_nil, List.nil_append]
  · decide
  · decide

/-! ### Lemmas about `strFind` and the trace extractor -/

/-- No match can start at or beyond the end of the string. -/
lemma not_matchesAt_of_ge {s sub : List Char} (hsub : sub ≠ []) {i : Nat}
    (hi : s.length ≤ i) : ¬ matchesAt s sub i := by
  intro h
  unfold matchesAt at h
  rw [List.drop_eq_nil_of_le hi] at h
  simp at h
  exact hsub h

/-- A match of a non-empty pattern starts strictly inside the string. -/
lemma matchesAt_lt {s sub : List Char} (hsub : sub ≠ []) {i : Nat}
    (h : matchesAt s sub i) : i < s.length := by
  by_contra hc
  exact not_matchesAt_of_ge hsub (Nat.le_of_not_lt hc) h

lemma strFindAux_some (s sub : List Char) :
    ∀ (fuel start p : Nat), start ≤ p → p < start + fuel →
      matchesAt s sub p → (∀ i, start ≤ i → i < p → ¬ matchesAt s sub i) →
      strFindAux s sub start fuel = some p := by
  intro fuel
  induction fuel with
  | zero =>
    intro start p h1 h2 _ _
    omega
  | succ fuel ih =>
    intro start p h1 h2 hm hmin
    rw [strFindAux]
    by_cases hs : matchesAt s sub start
    · rw [if_pos hs]
      rcases Nat.eq_or_lt_of_le h1 with he | hlt
      · rw [he]
      · exact absurd hs (hmin start le_rfl hlt)
    · rw [if_neg hs]
      have hne : start ≠ p := fun he => hs (he ▸ hm)
      exact ih (start + 1) p (by omega) (by omega) hm
        (fun i hi1 hi2 => hmin i (by omega) hi2)

lemma strFindAux_none (s sub : List Char) :
    ∀ (fuel start : Nat),
      (∀ i, start ≤ i → i < start + fuel → ¬ matchesAt s sub i) →
      strFindAux s sub start fuel = none := by
  intro fuel
  induction fuel with
  | zero => intro start _; rw [strFindAux]
  | succ fuel ih =>
    intro start h
    rw [strFindAux, if_neg (h start le_rfl (by omega))]
    exact ih (start + 1) (fun i hi1 hi2 => h i (by omega) (by omega))

/-- `str.find` returns the first match position at or after `start` —
with no condition whatsoever on the parity of that position. -/
lemma strFind_some (s sub : List Char) (start p : Nat) (hsub : sub ≠ [])
    (h1 : start ≤ p) (hm : matchesAt s sub p)
    (hmin : ∀ i, start ≤ i → i < p → ¬ matchesAt s sub i) :
    strFind s sub start = some p := by
  have hp : p < s.length := matchesAt_lt hsub hm
  exact strFindAux_some s sub _ start p h1 (by omega) hm hmin

/-- `str.find` returns `-1` exactly when no position in the string
matches. -/
lemma strFind_none (s sub : List Char) (start : Nat) (hsub : sub ≠ [])
    (h : ∀ i, start ≤ i → i < s.length → ¬ matchesAt s sub i) :
    strFind s sub start = none := by
  refine strFindAux_none s sub _ start (fun i hi1 _ => ?_)
  by_cases hc : i < s.length
  · exact h i hi1 hc
  · exact not_matchesAt_of_ge hsub (by omega)

/-- The pattern matches at the position right after a prefix. -/
lemma matchesAt_here (pre sub suf : List Char) :
    matchesAt (pre ++ (sub ++ suf)) sub pre.length := by
  unfold matchesAt
  rw [List.drop_left, List.take_left]

/-- Slicing out the middle component after a prefix. -/
lemma slice_here (pre mid suf : List Char) :
    slice (pre ++ (mid ++ suf)) pre.length (pre.length + mid.length) = mid := by
  unfold slice
  rw [List.drop_left, Nat.add_sub_cancel_left, List.take_left]

/-- C7: for every trace stream of the form start marker `DDDDDDDDDD`, then
`CCCCCCCCCC` followed by command hex, then `AAAAAAAAAA6` followed by
response hex, then `BBBBBBBBBB` (where no marker occurs anywhere else),
extraction yields exactly one (command, response) pair; the command is
split into header (first 5 bytes = 10 hex digits) and data (remainder)
whenever it is at least 5 bytes long, and the response into status (first
2 bytes = 4 hex digits) and data (remainder) whenever it is at least 2
bytes long, each retaining the original full string. -/
theorem scd_trace_extraction (s cmd resp : List Char)
    (hs : s = startMarker ++ (commandMarker ++ (cmd ++ (responseMarker ++
      ('6' :: (resp ++ endMarker))))))
    (hA : ∀ i < 20 + cmd.length, 10 ≤ i → ¬ matchesAt s responseMarker i)
    (hC : ∀ i < s.length, 20 + cmd.length ≤ i → ¬ matchesAt s commandMarker i)
    (hB : ∀ i < 31 + cmd.length + resp.length, 20 + cmd.length ≤ i →
      ¬ matchesAt s endMarker i) :
    scdparse s = [(mkCAPDU cmd, mkRAPDU ('6' :: resp))] ∧
    (∀ hx : List Char, 10 ≤ hx.length →
      mkCAPDU hx = ⟨hx, hx.take 10, hx.drop 10⟩) ∧
    (∀ hx : List Char, 4 ≤ hx.length →
      mkRAPDU hx = ⟨hx, hx.take 4, hx.drop 4⟩) := by
  refine ⟨?_, fun hx h => by simp [mkCAPDU, h], fun hx h => by simp [mkRAPDU, h]⟩
  have hs4 : s = (startMarker ++ commandMarker) ++
      (cmd ++ (responseMarker ++ ('6' :: (resp ++ endMarker)))) := by
    rw [hs]; simp [List.append_assoc]
  have hs1 : s = (startMarker ++ (commandMarker ++ cmd)) ++
      (responseMarker ++ ('6' :: (resp ++ endMarker))) := by
    rw [hs]; simp [List.append_assoc]
  have hs0 : s = (((startMarker ++ (commandMarker ++ cmd)) ++ responseMarker)) ++
      (('6' :: resp) ++ endMarker) := by
    rw [hs]; simp [List.append_assoc]
  have hs3 : s = ((((startMarker ++ (commandMarker ++ cmd)) ++ responseMarker) ++
      ('6' :: resp))) ++ (endMarker ++ []) := by
    rw [hs]; simp [List.append_assoc]
  have l1 : (startMarker ++ (commandMarker ++ cmd)).length = 20 + cmd.length := by
    simp [startMarker, commandMarker]; omega
  have l2 : ((startMarker ++ (commandMarker ++ cmd)) ++ responseMarker).length
      = 30 + cmd.length := by
    simp [startMarker, commandMarker, responseMarker]; omega
  have l3 : ((((startMarker ++ (commandMarker ++ cmd)) ++ responseMarker) ++
      ('6' :: resp))).length = 31 + cmd.length + resp.length := by
    simp [startMarker, commandMarker, responseMarker]; omega
  have f1 : strFind s startMarker 0 = some 0 := by
    refine strFind_some _ _ _ _ (by decide) (Nat.zero_le _) ?_ (by omega)
    have h := matchesAt_here [] startMarker
      (commandMarker ++ (cmd ++ (responseMarker ++ ('6' :: (resp ++ endMarker)))))
    rw [← hs] at h
    simpa using h
  have f2 : strFind s commandMarker 10 = some 10 := by
    refine strFind_some _ _ _ _ (by decide) le_rfl ?_ (by omega)
    have h := matchesAt_here startMarker commandMarker
      (cmd ++ (responseMarker ++ ('6' :: (resp ++ endMarker))))
    rw [← hs] at h
    rw [show startMarker.length = 10 from rfl] at h
    exact h
  have f3 : strFind s responseMarker 10 = some (20 + cmd.length) := by
    refine strFind_some _ _ _ _ (by decide) (by omega) ?_ ?_
    · have h := matchesAt_here (startMarker ++ (commandMarker ++ cmd))
        responseMarker ('6' :: (resp ++ endMarker))
      rw [← hs1, l1] at h
      exact h
    · intro i h1 h2
      exact hA i h2 h1
  have f4 : strFind s commandMarker (20 + cmd.length) = none := by
    refine strFind_none _ _ _ (by decide) ?_
    intro i h1 h2
    exact hC i h2 h1
  have f5 : strFind s endMarker (20 + cmd.length)
      = some (31 + cmd.length + resp.length) := by
    refine strFind_some _ _ _ _ (by decide) (by omega) ?_ ?_
    · have h := matchesAt_here ((((startMarker ++ (commandMarker ++ cmd)) ++
        responseMarker) ++ ('6' :: resp))) endMarker []
      rw [← hs3, l3] at h
      exact h
    · intro i h1 h2
      exact hB i h2 h1
  have sl1 : slice s 20 (20 + cmd.length) = cmd := by
    have h := slice_here (startMarker ++ commandMarker) cmd
      (responseMarker ++ ('6' :: (resp ++ endMarker)))
    rw [← hs4] at h
    rw [show (startMarker ++ commandMarker).length = 20 from rfl] at h
    exact h
  have sl2 : slice s (30 + cmd.length) (31 + cmd.length + resp.length)
      = '6' :: resp := by
    have h := slice_here ((startMarker ++ (commandMarker ++ cmd)) ++ responseMarker)
      ('6' :: resp) endMarker
    rw [← hs0, l2] at h
    rw [show 30 + cmd.length + ('6' :: resp).length
      = 31 + cmd.length + resp.length from by simp; omega] at h
    exact h
  simp only [scdparse, f1]
  rw [show (0 : Nat) + startMarker.length = 10 from rfl]
  simp only [f2]
  rw [scdloop]
  simp only [f3]
  rw [show (10 : Nat) + commandMarker.length = 20 from rfl]
  simp only [f4, f5]
  rw [show 20 + cmd.length + responseMarker.length = 30 + cmd.length from by
    rw [show responseMarker.length = 10 from rfl]; omega]
  rw [sl1, sl2]

/-- Witness for C7: command `00A4040005` (10 hex digits = 5 bytes) and
response nibble `6` + `9000`. -/
theorem scd_trace_extraction_witness :
    scdparse ("DDDDDDDDDDCCCCCCCCCC00A4040005AAAAAAAAAA69000BBBBBBBBBB".toList)
      = [(mkCAPDU ("00A4040005".toList), mkRAPDU ('6' :: "9000".toList))] ∧
    mkCAPDU ("00A4040005".toList) = ⟨"00A4040005".toList,
      ("00A4040005".toList).take 10, ("00A4040005".toList).drop 10⟩ ∧
    mkRAPDU ('6' :: "9000".toList) = ⟨'6' :: "9000".toList,
      ('6' :: "9000".toList).take 4, ('6' :: "9000".toList).drop 4⟩ := by
  have h := scd_trace_extraction
    ("DDDDDDDDDDCCCCCCCCCC00A4040005AAAAAAAAAA69000BBBBBBBBBB".toList)
    ("00A4040005".toList) ("9000".toList)
    (by decide) (by decide) (by decide) (by decide)
  exact ⟨h.1, h.2.1 _ (by decide), h.2.2 _ (by decide)⟩

/-- C2 counterexample: in the stream
`DDDDDDDDDD 0 CCCCCCCCCC 9 CCCCCCCCCC 1122334455 AAAAAAAAAA 9000 BBBBBBBBBB`
the command marker `CCCCCCCCCC` occurs exactly twice: at the odd nibble
offset 11 and at the even nibble offset 22.  The claim says framing must
use only the even-offset occurrence, which would extract the command
`1122334455`; the code uses the first (odd-offset) occurrence and extracts
`9CCCCCCCCCC1122334455` instead. -/
theorem scd_trace_alignment_counterexample :
    matchesAt ("DDDDDDDDDD0CCCCCCCCCC9CCCCCCCCCC1122334455AAAAAAAAAA9000BBBBBBBBBB".toList)
      commandMarker 11 ∧
    matchesAt ("DDDDDDDDDD0CCCCCCCCCC9CCCCCCCCCC1122334455AAAAAAAAAA9000BBBBBBBBBB".toList)
      commandMarker 22 ∧
    (11 : Nat) % 2 = 1 ∧ (22 : Nat) % 2 = 0 ∧
    ((scdparse ("DDDDDDDDDD0CCCCCCCCCC9CCCCCCCCCC1122334455AAAAAAAAAA9000BBBBBBBBBB".toList)).map
      (fun p => p.1.hexstring)) = ["9CCCCCCCCCC1122334455".toList] ∧
    "9CCCCCCCCCC1122334455".toList ≠ "1122334455".toList := by
  refine ⟨by decide, by decide, by decide, by decide, by decide, by decide⟩

/-- C2 amended: `SCDTrace.parse` uses `str.find`, which returns the FIRST
occurrence of a marker at ANY nibble offset, odd or even — there is no
byte-alignment check and no skipping of odd-offset matches.  In
particular, for a stream whose only command marker run starts at the odd
nibble offset 11 (one junk nibble `j ≠ 'C'` after the start marker),
framing happens at that odd offset and the command is the text following
it. -/
theorem scd_trace_odd_offset (s : List Char) (j : Char) (cmd resp : List Char)
    (hs : s = startMarker ++ (j :: (commandMarker ++ (cmd ++ (responseMarker ++
      (resp ++ endMarker))))))
    (hj : j ≠ 'C')
    (hA : ∀ i < 21 + cmd.length, 11 ≤ i → ¬ matchesAt s responseMarker i)
    (hC2 : ∀ i < s.length, 21 + cmd.length ≤ i → ¬ matchesAt s commandMarker i)
    (hB : ∀ i < 31 + cmd.length + resp.length, 21 + cmd.length ≤ i →
      ¬ matchesAt s endMarker i) :
    strFind s commandMarker 10 = some 11 ∧
    (11 : Nat) % 2 = 1 ∧
    scdparse s = [(mkCAPDU cmd, mkRAPDU resp)] := by
  have hsJ : s = (startMarker ++ [j]) ++ (commandMarker ++ (cmd ++
      (responseMarker ++ (resp ++ endMarker)))) := by
    rw [hs]; simp [List.append_assoc]
  have hsX1 : s = ((startMarker ++ [j]) ++ commandMarker) ++ (cmd ++
      (responseMarker ++ (resp ++ endMarker))) := by
    rw [hs]; simp [List.append_assoc]
  have hsX2 : s = (((startMarker ++ [j]) ++ commandMarker) ++ cmd) ++
      (responseMarker ++ (resp ++ endMarker)) := by
    rw [hs]; simp [List.append_assoc]
  have hsX3 : s = ((((startMarker ++ [j]) ++ commandMarker) ++ cmd) ++
      responseMarker) ++ (resp ++ endMarker) := by
    rw [hs]; simp [List.append_assoc]
  have hsX4 : s = (((((startMarker ++ [j]) ++ commandMarker) ++ cmd) ++
      responseMarker) ++ resp) ++ (endMarker ++ []) := by
    rw [hs]; simp [List.append_assoc]
  have lJ : (startMarker ++ [j]).length = 11 := by simp [startMarker]
  have lX1 : ((startMarker ++ [j]) ++ commandMarker).length = 21 := by
    simp [startMarker, commandMarker]
  have lX2 : ((((startMarker ++ [j]) ++ commandMarker) ++ cmd)).length
      = 21 + cmd.length := by
    simp [startMarker, commandMarker]; omega
  have lX3 : (((((startMarker ++ [j]) ++ commandMarker) ++ cmd) ++
      responseMarker)).length = 31 + cmd.length := by
    simp [startMarker, commandMarker, responseMarker]; omega
  have lX4 : ((((((startMarker ++ [j]) ++ commandMarker) ++ cmd) ++
      responseMarker) ++ resp)).length = 31 + cmd.length + resp.length := by
    simp [startMarker, commandMarker, responseMarker]; omega
  have hm10 : ¬ matchesAt s commandMarker 10 := by
    intro hm
    unfold matchesAt at hm
    have hd : s.drop 10 = j :: (commandMarker ++ (cmd ++ (responseMarker ++
        (resp ++ endMarker)))) := by
      rw [hs]
      exact List.drop_left' (by rfl)
    rw [hd, show commandMarker.length = 10 from rfl, List.take_succ_cons] at hm
    rw [show commandMarker = 'C' :: List.replicate 9 'C' from rfl] at hm
    exact hj (List.cons.injEq .. ▸ hm).1
  have f1 : strFind s startMarker 0 = some 0 := by
    refine strFind_some _ _ _ _ (by decide) (Nat.zero_le _) ?_ (by omega)
    have h := matchesAt_here [] startMarker (j :: (commandMarker ++ (cmd ++
      (responseMarker ++ (resp ++ endMarker)))))
    rw [← hs] at h
    simpa using h
  have f2 : strFind s commandMarker 10 = some 11 := by
    refine strFind_some _ _ _ _ (by decide) (by omega) ?_ ?_
    · have h := matchesAt_here (startMarker ++ [j]) commandMarker
        (cmd ++ (responseMarker ++ (resp ++ endMarker)))
      rw [← hsJ, lJ] at h
      exact h
    · intro i h1 h2
      have : i = 10 := by omega
      subst this
      exact hm10
  have f3 : strFind s responseMarker 11 = some (21 + cmd.length) := by
    refine strFind_some _ _ _ _ (by decide) (by omega) ?_ ?_
    · have h := matchesAt_here (((startMarker ++ [j]) ++ commandMarker) ++ cmd)
        responseMarker (resp ++ endMarker)
      rw [← hsX2, lX2] at h
      exact h
    · intro i h1 h2
      exact hA i h2 h1
  have f4 : strFind s commandMarker (21 + cmd.length) = none := by
    refine strFind_none _ _ _ (by decide) ?_
    intro i h1 h2
    exact hC2 i h2 h1
  have f5 : strFind s endMarker (21 + cmd.length)
      = some (31 + cmd.length + resp.length) := by
    refine strFind_some _ _ _ _ (by decide) (by omega) ?_ ?_
    · have h := matchesAt_here (((((startMarker ++ [j]) ++ commandMarker) ++ cmd) ++
        responseMarker) ++ resp) endMarker []
      rw [← hsX4, lX4] at h
      exact h
    · intro i h1 h2
      exact hB i h2 h1
  have sl1 : slice s 21 (21 + cmd.length) = cmd := by
    have h := slice_here ((startMarker ++ [j]) ++ commandMarker) cmd
      (responseMarker ++ (resp ++ endMarker))
    rw [← hsX1, lX1] at h
    exact h
  have sl2 : slice s (31 + cmd.length) (31 + cmd.length + resp.length) = resp := by
    have h := slice_here ((((startMarker ++ [j]) ++ commandMarker) ++ cmd) ++
      responseMarker) resp endMarker
    rw [← hsX3, lX3] at h
    exact h
  refine ⟨f2, by decide, ?_⟩
  simp only [scdparse, f1]
  rw [show (0 : Nat) + startMarker.length = 10 from rfl]
  simp only [f2]
  rw [scdloop]
  simp only [f3]
  rw [show (11 : Nat) + commandMarker.length = 21 from rfl]
  simp only [f4, f5]
  rw [show 21 + cmd.length + responseMarker.length = 31 + cmd.length from by
    rw [show responseMarker.length = 10 from rfl]; omega]
  rw [sl1, sl2]

/-- Witness for C2 amended: junk nibble `0` before the marker, command
`1122334455`, response `9000`; the marker is found at the odd offset 11
and framing proceeds there. -/
theorem scd_trace_odd_offset_witness :
    strFind ("DDDDDDDDDD0CCCCCCCCCC1122334455AAAAAAAAAA9000BBBBBBBBBB".toList)
      commandMarker 10 = some 11 ∧
    (11 : Nat) % 2 = 1 ∧
    scdparse ("DDDDDDDDDD0CCCCCCCCCC1122334455AAAAAAAAAA9000BBBBBBBBBB".toList)
      = [(mkCAPDU ("1122334455".toList), mkRAPDU ("9000".toList))] :=
  scd_trace_odd_offset
    ("DDDDDDDDDD0CCCCCCCCCC1122334455AAAAAAAAAA9000BBBBBBBBBB".toList)
    '0' ("1122334455".toList) ("9000".toList)
    (by decide) (by decide) (by decide) (by decide) (by decide)

end SCD
